import Mathlib

/-!
Shallow embedding of `src/AdvancedFixedIncome.py` (fixed-income pricing helpers).

Floating-point numbers are modelled by exact reals.  `np.round(x, 4)` is
modelled by `round4` below.  Pandas positional indexing (`iloc`) raises
`IndexError` when out of bounds; functions whose body performs such an access
are embedded as `Option`-valued, returning `none` exactly where the Python code
raises.  `int()` truncation toward zero is `truncInt`.
-/

noncomputable section

namespace AdvancedFixedIncome

/-- Python `int()` applied to a real number: truncation toward zero. -/
def truncInt (x : ℝ) : ℤ := if 0 ≤ x then ⌊x⌋ else ⌈x⌉

/-- Model of `np.round(x, 4)`: rounding to four decimal places.  (NumPy breaks
exact ties to the even digit; no value in this development sits on a tie, so
round-half-up is used.) -/
def round4 (x : ℝ) : ℝ := (round (x * 10000) : ℝ) / 10000

/-- Source `zc_bond(N, T, r, simple_rate=True)`: price of a zero-coupon bond,
i.e. the discount factor scaled by the face value.  The body never consults
`simple_rate`. -/
def zc_bond (N T r : ℝ) (simple_rate : Bool) : ℝ := N / (1 + r * T)

/-- Source `simple_to_comp(simple_rate, t, freq_per_year)`.  The power is the
real-valued `**`. -/
def simple_to_comp (simple_rate t freq_per_year : ℝ) : ℝ :=
  ((1 + simple_rate * t) ^ (1 / (t * freq_per_year)) - 1) * freq_per_year

/-- Source `comp_to_simple(comp_rate, t, freq_per_year)`. -/
def comp_to_simple (comp_rate t freq_per_year : ℝ) : ℝ :=
  ((1 + comp_rate / freq_per_year) ^ (t * freq_per_year) - 1) / t

/-- Source `pv_simple(cf, r, tau)`. -/
def pv_simple (cf r tau : ℝ) : ℝ := round4 (zc_bond 1 tau r true * cf)

/-- Source `nbre_payments = int(T*freq_per_year)`, used as a `range` bound
(a nonpositive count yields the empty range, hence `Int.toNat`). -/
def nbrePayments (T freq_per_year : ℝ) : ℕ := (truncInt (T * freq_per_year)).toNat

/-- Source cash-flow series
`CFs = pd.Series([cpn_ann*N*(1/freq) for i in range(n)]); CFs.iloc[-1] += N`.
For `n = 0` the `iloc[-1]` access raises; the price functions below gate on
that case, so this helper is total. -/
def cashFlowList (N cpn_ann freq_per_year : ℝ) (n : ℕ) : List ℝ :=
  (List.replicate n (cpn_ann * N * (1 / freq_per_year))).set (n - 1)
    (cpn_ann * N * (1 / freq_per_year) + N)

/-- Source timeline series `tl = pd.Series([(i+1)*(1/freq) for i in range(n)])`. -/
def timelineList (freq_per_year : ℝ) (n : ℕ) : List ℝ :=
  (List.range n).map fun i : ℕ => ((i : ℝ) + 1) * (1 / freq_per_year)

/-- Source `bond_s_price(N, cpn_ann, T, freq_per_year, zc_rates)`: curve-based
price.  `none` models the `IndexError` raised by `CFs.iloc[-1]` on an empty
series (no payments) and by `zc_rates.iloc[i]` when the curve is shorter than
the payment count; a curve longer than the payment count is accepted, only its
first `nbre_payments` entries being read. -/
def bond_s_price (N cpn_ann T freq_per_year : ℝ) (zc_rates : List ℝ) : Option ℝ :=
  let nbre_payments := nbrePayments T freq_per_year
  if nbre_payments = 0 then none
  else if zc_rates.length < nbre_payments then none
  else
    let CFs := cashFlowList N cpn_ann freq_per_year nbre_payments
    some (round4 (∑ i in Finset.range nbre_payments,
      CFs.getD i 0 *
        zc_bond 1 (((i : ℝ) + 1) * (1 / freq_per_year)) (zc_rates.getD i 0) true))

/-- Source `create_bond`: a bond record with nominal, tenor in years, annual
coupon rate and coupon payment frequency. -/
structure Bond where
  N : ℝ
  T : ℝ
  cpn_ann : ℝ
  freq : ℝ

/-- Source `create_bond(N, T, cpn_ann, freq_per_year)`. -/
def create_bond (N T cpn_ann freq_per_year : ℝ) : Bond :=
  ⟨N, T, cpn_ann, freq_per_year⟩

/-- Source `bond_c_price(bond, yc)`: price from a flat periodically-compounded
yield.  The discount applies the real power `(1+yc/freq)**(tl*freq)` and the
result is returned unrounded.  `none` models the `IndexError` on an empty
cash-flow series. -/
def bond_c_price (bond : Bond) (yc : ℝ) : Option ℝ :=
  let nbre_payments := nbrePayments bond.T bond.freq
  if nbre_payments = 0 then none
  else
    let CFs := cashFlowList bond.N bond.cpn_ann bond.freq nbre_payments
    let tl := timelineList bond.freq nbre_payments
    some (∑ i in Finset.range nbre_payments,
      CFs.getD i 0 / (1 + yc / bond.freq) ^ (tl.getD i 0 * bond.freq))

/-- Source `macaulay_duration(bond, yc)`: per-term weight
`tl*np.exp(-yc*tl)*CFs`, divided by the price from `bond_c_price`, summed and
rounded to four decimals.  `none` models the `IndexError` on an empty cash-flow
series. -/
def macaulay_duration (bond : Bond) (yc : ℝ) : Option ℝ :=
  let nbre_payments := nbrePayments bond.T bond.freq
  if nbre_payments = 0 then none
  else
    let CFs := cashFlowList bond.N bond.cpn_ann bond.freq nbre_payments
    let tl := timelineList bond.freq nbre_payments
    match bond_c_price bond yc with
    | none => none
    | some den =>
        some (round4 (∑ i in Finset.range nbre_payments,
          tl.getD i 0 * Real.exp (-yc * tl.getD i 0) * CFs.getD i 0 / den))

/-- Source `modified_macaulay_duration(bond, yc)`. -/
def modified_macaulay_duration (bond : Bond) (yc : ℝ) : Option ℝ :=
  match macaulay_duration bond yc with
  | none => none
  | some md => some (round4 (md / (1 + yc / bond.freq)))

/-- Source `bond_stats` result record: the three fields of the returned series. -/
structure BondStats where
  Price : Option ℝ
  MacaulayDuration : Option ℝ
  ModifiedMacaulay : Option ℝ

/-- Source `bond_stats(bond, yc)`: the `Price` field stores `bond_c_price`
verbatim, with no rounding applied. -/
def bond_stats (bond : Bond) (yc : ℝ) : BondStats where
  Price := bond_c_price bond yc
  MacaulayDuration := macaulay_duration bond yc
  ModifiedMacaulay := modified_macaulay_duration bond yc

/-- Cash-flow amount for period `i` as the spec words it (section 4.4):
`coupon_rate * face / frequency`, the final period additionally adding `face`. -/
def spec_amount (bond : Bond) (n i : ℕ) : ℝ :=
  if i = n - 1 then bond.cpn_ann * bond.N / bond.freq + bond.N
  else bond.cpn_ann * bond.N / bond.freq

/-- Payment time for period index `i` as the spec words it: `(i+1)/frequency`. -/
def spec_payment_time (bond : Bond) (i : ℕ) : ℝ := ((i : ℝ) + 1) / bond.freq

/-! Abbreviations naming the sub-expressions of `bond_c_price` and
`macaulay_duration`, used to state intermediate facts about them. -/

/-- Cash flow of period `i` (entry `i` of the `CFs` series). -/
def cfAt (bond : Bond) (i : ℕ) : ℝ :=
  (cashFlowList bond.N bond.cpn_ann bond.freq (nbrePayments bond.T bond.freq)).getD i 0

/-- Payment time of period `i` (entry `i` of the `tl` series). -/
def tlAt (bond : Bond) (i : ℕ) : ℝ :=
  (timelineList bond.freq (nbrePayments bond.T bond.freq)).getD i 0

/-- Discount divisor of period `i` in `bond_c_price`. -/
def discAt (bond : Bond) (yc : ℝ) (i : ℕ) : ℝ :=
  (1 + yc / bond.freq) ^ (tlAt bond i * bond.freq)

/-- The sum inside `bond_c_price`. -/
def priceSum (bond : Bond) (yc : ℝ) : ℝ :=
  ∑ i in Finset.range (nbrePayments bond.T bond.freq), cfAt bond i / discAt bond yc i

/-- The sum inside `macaulay_duration` (before the 4-decimal rounding). -/
def weightSum (bond : Bond) (yc : ℝ) : ℝ :=
  ∑ i in Finset.range (nbrePayments bond.T bond.freq),
    tlAt bond i * Real.exp (-yc * tlAt bond i) * cfAt bond i / priceSum bond yc

/-! ### Generic helper lemmas about rounding, truncation and the series -/

lemma round4_eq_of (x : ℝ) (k : ℤ) (h1 : (k : ℝ) ≤ x * 10000 + 1 / 2)
    (h2 : x * 10000 + 1 / 2 < (k : ℝ) + 1) : round4 x = (k : ℝ) / 10000 := by
  rw [round4, round_eq, Int.floor_eq_iff.mpr ⟨h1, h2⟩]

lemma round4_le_add (x : ℝ) : round4 x ≤ x + 1 / 20000 := by
  rw [round4, round_eq]
  have h := Int.floor_le (x * 10000 + 1 / 2)
  have : (⌊x * 10000 + 1 / 2⌋ : ℝ) / 10000 ≤ (x * 10000 + 1 / 2) / 10000 := by
    linarith
  calc (⌊x * 10000 + 1 / 2⌋ : ℝ) / 10000 ≤ (x * 10000 + 1 / 2) / 10000 := this
    _ = x + 1 / 20000 := by ring

lemma round4_mono {x y : ℝ} (h : x ≤ y) : round4 x ≤ round4 y := by
  rw [round4, round4]
  have h1 : round (x * 10000) ≤ round (y * 10000) := by
    rw [round_eq, round_eq]
    exact Int.floor_mono (by linarith)
  have h2 : ((round (x * 10000) : ℤ) : ℝ) ≤ ((round (y * 10000) : ℤ) : ℝ) := by
    exact_mod_cast h1
  linarith

lemma round4_nonneg {x : ℝ} (h : 0 ≤ x) : 0 ≤ round4 x := by
  have := round4_mono h
  have h0 : round4 0 = 0 := by
    rw [round4]
    norm_num
  linarith [h0 ▸ this]

lemma round4_idem (x : ℝ) : round4 (round4 x) = round4 x := by
  rw [round4, round4]
  have : ((round (x * 10000) : ℤ) : ℝ) / 10000 * 10000 = ((round (x * 10000) : ℤ) : ℝ) := by
    ring
  rw [this, round_intCast]

lemma truncInt_of_nonneg {x : ℝ} (h : 0 ≤ x) : truncInt x = ⌊x⌋ := if_pos h

lemma nbrePayments_natCast (m : ℕ) {T f : ℝ} (h : T * f = (m : ℝ)) :
    nbrePayments T f = m := by
  rw [nbrePayments, h, truncInt_of_nonneg (by positivity), Int.floor_natCast,
    Int.toNat_natCast]

lemma nbrePayments_cast_le {T f : ℝ} (hn : 1 ≤ nbrePayments T f) :
    (nbrePayments T f : ℝ) ≤ T * f := by
  rw [nbrePayments] at hn ⊢
  by_cases h : 0 ≤ T * f
  · rw [truncInt_of_nonneg h] at hn ⊢
    have h0 : 0 ≤ ⌊T * f⌋ := by
      by_contra hc
      push_neg at hc
      rw [Int.toNat_of_nonpos (le_of_lt hc)] at hn
      omega
    have h1 : (⌊T * f⌋.toNat : ℤ) = ⌊T * f⌋ := Int.toNat_of_nonneg h0
    have h2 : ((⌊T * f⌋.toNat : ℤ) : ℝ) ≤ T * f := by
      rw [h1]
      exact Int.floor_le (T * f)
    exact_mod_cast h2
  · exfalso
    push_neg at h
    rw [truncInt, if_neg (not_le.mpr h)] at hn
    have hc : ⌈T * f⌉ ≤ 0 := Int.ceil_le.mpr (by exact_mod_cast le_of_lt h)
    rw [Int.toNat_of_nonpos hc] at hn
    omega

lemma cashFlowList_length (N c f : ℝ) (n : ℕ) : (cashFlowList N c f n).length = n := by
  simp [cashFlowList]

lemma cashFlowList_getD_last (N c f : ℝ) {n : ℕ} (hn : 1 ≤ n) :
    (cashFlowList N c f n).getD (n - 1) 0 = c * N * (1 / f) + N := by
  unfold cashFlowList
  have hlt : n - 1 <
      ((List.replicate n (c * N * (1 / f))).set (n - 1) (c * N * (1 / f) + N)).length := by
    simp
    omega
  rw [List.getD_eq_getElem _ _ hlt, List.getElem_set_self]

lemma cashFlowList_getD_of_lt (N c f : ℝ) {n i : ℕ} (hi : i < n - 1) :
    (cashFlowList N c f n).getD i 0 = c * N * (1 / f) := by
  unfold cashFlowList
  have hlt : i <
      ((List.replicate n (c * N * (1 / f))).set (n - 1) (c * N * (1 / f) + N)).length := by
    simp
    omega
  rw [List.getD_eq_getElem _ _ hlt, List.getElem_set_ne (by omega)]
  exact List.getElem_replicate _ _

lemma timelineList_getD (f : ℝ) {n i : ℕ} (hi : i < n) :
    (timelineList f n).getD i 0 = ((i : ℝ) + 1) * (1 / f) := by
  unfold timelineList
  have hlt : i < ((List.range n).map fun j : ℕ => ((j : ℝ) + 1) * (1 / f)).length := by
    rw [List.length_map, List.length_range]
    exact hi
  rw [List.getD_eq_getElem _ _ hlt]
  simp

/-! ### Unfolding lemmas for the `Option`-valued operations -/

lemma bond_c_price_of_ne (bond : Bond) (yc : ℝ)
    (hn : nbrePayments bond.T bond.freq ≠ 0) :
    bond_c_price bond yc = some (∑ i in Finset.range (nbrePayments bond.T bond.freq),
      (cashFlowList bond.N bond.cpn_ann bond.freq (nbrePayments bond.T bond.freq)).getD i 0 /
        (1 + yc / bond.freq) ^
          ((timelineList bond.freq (nbrePayments bond.T bond.freq)).getD i 0 * bond.freq)) := by
  rw [bond_c_price]
  simp only [hn, if_false, ite_false]

lemma macaulay_duration_of_ne (bond : Bond) (yc : ℝ) (den : ℝ)
    (hn : nbrePayments bond.T bond.freq ≠ 0)
    (hp : bond_c_price bond yc = some den) :
    macaulay_duration bond yc = some (round4 (∑ i in Finset.range (nbrePayments bond.T bond.freq),
      (timelineList bond.freq (nbrePayments bond.T bond.freq)).getD i 0 *
        Real.exp (-yc * (timelineList bond.freq (nbrePayments bond.T bond.freq)).getD i 0) *
        (cashFlowList bond.N bond.cpn_ann bond.freq (nbrePayments bond.T bond.freq)).getD i 0 /
        den)) := by
  rw [macaulay_duration]
  simp only [hn, if_false, ite_false, hp]

lemma modified_of_some (bond : Bond) (yc md : ℝ)
    (h : macaulay_duration bond yc = some md) :
    modified_macaulay_duration bond yc = some (round4 (md / (1 + yc / bond.freq))) := by
  rw [modified_macaulay_duration, h]

lemma bond_c_price_eq_priceSum (bond : Bond) (yc : ℝ)
    (hn : nbrePayments bond.T bond.freq ≠ 0) :
    bond_c_price bond yc = some (priceSum bond yc) := by
  rw [bond_c_price_of_ne _ _ hn]
  rfl

lemma macaulay_duration_eq_weightSum (bond : Bond) (yc : ℝ)
    (hn : nbrePayments bond.T bond.freq ≠ 0) :
    macaulay_duration bond yc = some (round4 (weightSum bond yc)) := by
  rw [macaulay_duration_of_ne bond yc (priceSum bond yc) hn
    (bond_c_price_eq_priceSum bond yc hn)]
  rfl

/-! ### Elementary exponential bounds used for concrete evaluations -/

lemma exp_neg_le_inv_one_add {a : ℝ} (h : 0 < 1 + a) :
    Real.exp (-a) ≤ (1 + a)⁻¹ := by
  rw [Real.exp_neg]
  have h1 : 1 + a ≤ Real.exp a := by
    have := Real.add_one_le_exp a
    linarith
  exact inv_anti₀ h h1

lemma one_sub_le_exp_neg (a : ℝ) : 1 - a ≤ Real.exp (-a) := by
  have := Real.add_one_le_exp (-a)
  linarith

/-! ### Claim C4: rate-conversion round trip -/

/-- C4: for every valid `(r, t, f)` with `t > 0`, `f > 0` and a nonnegative
power base `1 + r*t`, the round trip
`comp_to_simple (simple_to_comp r t f) t f` reproduces `r` within `1e-9`
(indeed exactly, over the reals). -/
theorem rate_roundtrip (r t f : ℝ) (ht : 0 < t) (hf : 0 < f)
    (hbase : 0 ≤ 1 + r * t) :
    |comp_to_simple (simple_to_comp r t f) t f - r| ≤ 1 / 1000000000 := by
  have htf : t * f ≠ 0 := by positivity
  have key : comp_to_simple (simple_to_comp r t f) t f = r := by
    unfold comp_to_simple simple_to_comp
    have h1 : 1 + ((1 + r * t) ^ (1 / (t * f)) - 1) * f / f
        = (1 + r * t) ^ (1 / (t * f)) := by
      field_simp
    rw [h1, ← Real.rpow_mul hbase, one_div_mul_cancel htf, Real.rpow_one]
    field_simp
  rw [key, sub_self, abs_zero]
  norm_num

theorem rate_roundtrip_witness :
    |comp_to_simple (simple_to_comp (5 / 100) 1 2) 1 2 - 5 / 100| ≤ 1 / 1000000000 :=
  rate_roundtrip (5 / 100) 1 2 (by norm_num) (by norm_num) (by norm_num)

/-! ### Claim C9: the simple_rate flag of zc_bond is inert -/

/-- C9: for both boolean values of the flag, `zc_bond` returns `N/(1+r*T)`;
no compounded-discounting branch exists behind the flag. -/
theorem zc_bond_flag_inert (N T r : ℝ) (b : Bool) :
    zc_bond N T r b = N / (1 + r * T) ∧ zc_bond N T r true = zc_bond N T r false :=
  ⟨rfl, rfl⟩

/-! ### Claim C10: zero truncated payment count means an error, not a value -/

/-- C10: with positive face value and frequency but `0 < T*f < 1`, the
truncated payment count is zero, and the pricing and duration operations all
raise (here: return `none`) instead of producing a number. -/
theorem empty_schedule_errors (b : Bond) (zr : List ℝ) (y : ℝ)
    (hN : 0 < b.N) (hf : 0 < b.freq) (h0 : 0 < b.T * b.freq)
    (h1 : b.T * b.freq < 1) :
    bond_c_price b y = none ∧ bond_s_price b.N b.cpn_ann b.T b.freq zr = none ∧
      macaulay_duration b y = none := by
  have hn : nbrePayments b.T b.freq = 0 := by
    rw [nbrePayments, truncInt_of_nonneg (le_of_lt h0)]
    have hfl : ⌊b.T * b.freq⌋ = 0 := by
      rw [Int.floor_eq_iff]
      constructor
      · exact_mod_cast le_of_lt h0
      · push_cast
        linarith
    rw [hfl]
    rfl
  refine ⟨?_, ?_, ?_⟩
  · rw [bond_c_price]
    simp [hn]
  · rw [bond_s_price]
    simp [hn]
  · rw [macaulay_duration]
    simp [hn]

theorem empty_schedule_errors_witness :
    bond_c_price (create_bond 100 (1 / 2) (6 / 100) 1) (5 / 100) = none ∧
      bond_s_price 100 (6 / 100) (1 / 2) 1 [5 / 100] = none ∧
      macaulay_duration (create_bond 100 (1 / 2) (6 / 100) 1) (5 / 100) = none :=
  empty_schedule_errors (create_bond 100 (1 / 2) (6 / 100) 1) [5 / 100] (5 / 100)
    (by norm_num [create_bond]) (by norm_num [create_bond])
    (by norm_num [create_bond]) (by norm_num [create_bond])

/-! ### Claim C8: the Price field of bond_stats -/

lemma bond_c_price_ex1 :
    bond_c_price (create_bond 100 1 (6 / 100) 1) (1 / 20) = some (2120 / 21) := by
  have hn : nbrePayments (create_bond 100 1 (6 / 100) 1).T
      (create_bond 100 1 (6 / 100) 1).freq = 1 :=
    nbrePayments_natCast 1 (by norm_num [create_bond])
  rw [bond_c_price]
  simp only [hn]
  norm_num [Finset.sum_range_one, cashFlowList, timelineList, create_bond,
    Real.rpow_one]

/-- C8 counterexample: at a concrete bond and yield, the `Price` field of
`bond_stats` is the full-precision `2120/21`, which differs from its own
4-decimal rounding, refuting the claim that the field is rounded. -/
theorem stats_price_cex :
    (bond_stats (create_bond 100 1 (6 / 100) 1) (1 / 20)).Price = some (2120 / 21) ∧
      round4 (2120 / 21) ≠ (2120 / 21 : ℝ) := by
  constructor
  · exact bond_c_price_ex1
  · rw [round4_eq_of (2120 / 21) 1009524 (by norm_num) (by norm_num)]
    norm_num

/-- C8 amended: the `Price` field of `bond_stats` stores the yield-based price
at full precision, with no 4-decimal rounding applied (only the two duration
fields are rounded, inside their own functions). -/
theorem stats_price_full_precision (b : Bond) (y : ℝ) :
    (bond_stats b y).Price = bond_c_price b y := rfl

/-! ### Claim C6: shape of the cash-flow schedule -/

/-- C6: with a positive truncated payment count, the schedule has exactly
`truncInt (T * freq)` entries; each entry is `coupon_rate * face / frequency`
except the last, which additionally adds the face value; and the payment time
for 0-based index `i` is `(i+1)/frequency`. -/
theorem schedule_spec (b : Bond) (hn : 1 ≤ nbrePayments b.T b.freq) :
    (cashFlowList b.N b.cpn_ann b.freq (nbrePayments b.T b.freq)).length
        = (truncInt (b.T * b.freq)).toNat ∧
      (∀ i, i < nbrePayments b.T b.freq - 1 →
        (cashFlowList b.N b.cpn_ann b.freq (nbrePayments b.T b.freq)).getD i 0
          = b.cpn_ann * b.N / b.freq) ∧
      (cashFlowList b.N b.cpn_ann b.freq (nbrePayments b.T b.freq)).getD
          (nbrePayments b.T b.freq - 1) 0 = b.cpn_ann * b.N / b.freq + b.N ∧
      (∀ i, i < nbrePayments b.T b.freq →
        (timelineList b.freq (nbrePayments b.T b.freq)).getD i 0
          = ((i : ℝ) + 1) / b.freq) := by
  refine ⟨?_, ?_, ?_, ?_⟩
  · rw [cashFlowList_length]
    rfl
  · intro i hi
    rw [cashFlowList_getD_of_lt _ _ _ hi]
    ring
  · rw [cashFlowList_getD_last _ _ _ hn]
    ring
  · intro i hi
    rw [timelineList_getD _ hi]
    ring

lemma nbre_29_10_2 : nbrePayments (29 / 10 : ℝ) 2 = 5 := by
  rw [nbrePayments, truncInt_of_nonneg (by norm_num)]
  have hfl : ⌊(29 / 10 : ℝ) * 2⌋ = 5 := by
    rw [Int.floor_eq_iff]
    constructor
    · norm_num
    · push_cast
      norm_num
  rw [hfl]
  rfl

theorem schedule_spec_witness :
    nbrePayments (29 / 10 : ℝ) 2 = 5 ∧
      ((cashFlowList 100 (6 / 100) 2 (nbrePayments (29 / 10 : ℝ) 2)).length
          = (truncInt ((29 / 10 : ℝ) * 2)).toNat ∧
        (∀ i, i < nbrePayments (29 / 10 : ℝ) 2 - 1 →
          (cashFlowList 100 (6 / 100) 2 (nbrePayments (29 / 10 : ℝ) 2)).getD i 0
            = (6 / 100) * 100 / 2) ∧
        (cashFlowList 100 (6 / 100) 2 (nbrePayments (29 / 10 : ℝ) 2)).getD
            (nbrePayments (29 / 10 : ℝ) 2 - 1) 0 = (6 / 100) * 100 / 2 + 100 ∧
        (∀ i, i < nbrePayments (29 / 10 : ℝ) 2 →
          (timelineList 2 (nbrePayments (29 / 10 : ℝ) 2)).getD i 0
            = ((i : ℝ) + 1) / 2)) :=
  ⟨nbre_29_10_2,
    schedule_spec (create_bond 100 (29 / 10) (6 / 100) 2) (by
      show 1 ≤ nbrePayments (29 / 10 : ℝ) 2
      rw [nbre_29_10_2]
      omega)⟩

/-! ### Claim C5: the yield-based price against the spec formula -/

/-- C5: with a positive number of payments, `bond_c_price` equals the spec's
sum of `amounts[i] * (1 + yield/frequency) ^ (-payment_times[i]*frequency)`
with `payment_times[i] = (i+1)/frequency`, returned at full precision (no
rounding appears on either side). -/
theorem price_from_yield_spec (b : Bond) (y : ℝ)
    (hn : 1 ≤ nbrePayments b.T b.freq) (hy : 0 < 1 + y / b.freq) :
    bond_c_price b y = some (∑ i in Finset.range (nbrePayments b.T b.freq),
      spec_amount b (nbrePayments b.T b.freq) i *
        (1 + y / b.freq) ^ (-(spec_payment_time b i * b.freq))) := by
  rw [bond_c_price_of_ne _ _ (by omega)]
  congr 1
  apply Finset.sum_congr rfl
  intro i hi
  rw [Finset.mem_range] at hi
  rw [timelineList_getD _ hi, Real.rpow_neg (le_of_lt hy), spec_payment_time,
    spec_amount]
  have hexp : ((i : ℝ) + 1) * (1 / b.freq) * b.freq = ((i : ℝ) + 1) / b.freq * b.freq := by
    ring
  rw [hexp, div_eq_mul_inv]
  by_cases hlast : i = nbrePayments b.T b.freq - 1
  · rw [if_pos hlast, hlast, cashFlowList_getD_last _ _ _ hn]
    ring_nf
  · rw [if_neg hlast, cashFlowList_getD_of_lt _ _ _ (by omega)]
    ring_nf

theorem price_from_yield_spec_witness :
    bond_c_price (create_bond 100 1 (6 / 100) 1) (1 / 20) =
      some (∑ i in Finset.range (nbrePayments (create_bond 100 1 (6 / 100) 1).T
          (create_bond 100 1 (6 / 100) 1).freq),
        spec_amount (create_bond 100 1 (6 / 100) 1)
            (nbrePayments (create_bond 100 1 (6 / 100) 1).T
              (create_bond 100 1 (6 / 100) 1).freq) i *
          (1 + (1 / 20) / (create_bond 100 1 (6 / 100) 1).freq) ^
            (-(spec_payment_time (create_bond 100 1 (6 / 100) 1) i *
                (create_bond 100 1 (6 / 100) 1).freq))) :=
  price_from_yield_spec (create_bond 100 1 (6 / 100) 1) (1 / 20) (by
    show 1 ≤ nbrePayments (1 : ℝ) 1
    rw [nbrePayments_natCast 1 (by norm_num)])
    (by norm_num [create_bond])

/-! ### Claim C2: behavior of the curve-based price on a length mismatch -/

/-- C2 counterexample: a curve strictly longer than the payment count does not
raise; the price is returned (here `round4 (106/1.05) = 100.9524`), refuting
the claim that any length mismatch is an error. -/
theorem curve_length_cex :
    bond_s_price 100 (6 / 100) 1 1 [5 / 100, 6 / 100]
      = some ((1009524 : ℝ) / 10000) := by
  have hn : nbrePayments (1 : ℝ) 1 = 1 := nbrePayments_natCast 1 (by norm_num)
  rw [bond_s_price]
  simp only [hn]
  norm_num [Finset.sum_range_one, cashFlowList, zc_bond]
  rw [round4_eq_of (2120 / 21) 1009524 (by norm_num) (by norm_num)]
  norm_num

/-- C2 amended: a curve shorter than the payment count raises (an index error,
modelled as `none`); a curve longer than the payment count is accepted — the
extra entries are ignored and a price is returned. -/
theorem curve_length_behavior (N c T f : ℝ) (zr extra : List ℝ)
    (hn : 1 ≤ nbrePayments T f) :
    (zr.length < nbrePayments T f → bond_s_price N c T f zr = none) ∧
      (zr.length = nbrePayments T f →
        bond_s_price N c T f (zr ++ extra) = bond_s_price N c T f zr ∧
          (bond_s_price N c T f zr).isSome = true) := by
  have h0 : ¬ nbrePayments T f = 0 := by omega
  constructor
  · intro hlt
    rw [bond_s_price]
    simp only [h0, if_false, ite_false, if_pos hlt]
  · intro hlen
    have h1 : ¬ zr.length < nbrePayments T f := by omega
    have h2 : ¬ (zr ++ extra).length < nbrePayments T f := by
      rw [List.length_append]
      omega
    constructor
    · rw [bond_s_price, bond_s_price]
      simp only [h0, if_false, ite_false, h1, h2]
      congr 2
      apply Finset.sum_congr rfl
      intro i hi
      rw [Finset.mem_range] at hi
      rw [List.getD_append]
      omega
    · rw [bond_s_price]
      simp only [h0, if_false, ite_false, h1]
      rfl

theorem curve_length_behavior_witness :
    bond_s_price 100 (6 / 100) 1 1 [] = none ∧
      (bond_s_price 100 (6 / 100) 1 1 ([5 / 100] ++ [6 / 100])
          = bond_s_price 100 (6 / 100) 1 1 [5 / 100] ∧
        (bond_s_price 100 (6 / 100) 1 1 [5 / 100]).isSome = true) := by
  have hn : nbrePayments (1 : ℝ) 1 = 1 := nbrePayments_natCast 1 (by norm_num)
  refine ⟨?_, ?_⟩
  · exact (curve_length_behavior 100 (6 / 100) 1 1 [] [] (by omega)).1 (by simp [hn])
  · exact (curve_length_behavior 100 (6 / 100) 1 1 [5 / 100] [6 / 100]
      (by omega)).2 (by simp [hn])

/-! ### Claim C3: the worked curve-price example -/

lemma bond_s_price_ex2 :
    bond_s_price 100 (6 / 100) 2 1 [5 / 100, 55 / 1000]
      = some ((1012098 : ℝ) / 10000) := by
  have hn : nbrePayments (2 : ℝ) 1 = 2 := nbrePayments_natCast 2 (by norm_num)
  rw [bond_s_price]
  simp only [hn]
  norm_num [Finset.sum_range_succ, Finset.sum_range_one, cashFlowList, zc_bond]
  rw [round4_eq_of (78640 / 777) 1012098 (by norm_num) (by norm_num)]
  norm_num

/-- C3 counterexample: the returned value for the spec's worked example is not
`100.5134`; the spec's arithmetic for `106/(1+0.055*2)` is wrong. -/
theorem curve_price_example_cex :
    bond_s_price 100 (6 / 100) 2 1 [5 / 100, 55 / 1000]
      ≠ some ((1005134 : ℝ) / 10000) := by
  rw [bond_s_price_ex2]
  simp only [ne_eq, Option.some.injEq]
  norm_num

/-- C3 amended: the curve-based price for the example equals
`round4 (6/(1.05) + 106/(1+0.055*2))`, whose value to 4 decimals is
`101.2098` (the spec's `100.5134` miscomputes the second present value). -/
theorem curve_price_example_value :
    bond_s_price 100 (6 / 100) 2 1 [5 / 100, 55 / 1000]
        = some (round4 (6 / (1 + (5 / 100) * 1) + 106 / (1 + (55 / 1000) * 2))) ∧
      round4 (6 / (1 + (5 / 100) * 1) + 106 / (1 + (55 / 1000) * 2))
        = (1012098 : ℝ) / 10000 := by
  have h : round4 (6 / (1 + (5 / 100) * 1) + 106 / (1 + (55 / 1000) * 2))
      = (1012098 : ℝ) / 10000 := by
    rw [show (6 / (1 + (5 / 100) * 1) + 106 / (1 + (55 / 1000) * 2) : ℝ)
        = 78640 / 777 by norm_num]
    exact round4_eq_of (78640 / 777) 1012098 (by norm_num) (by norm_num)
  exact ⟨by rw [bond_s_price_ex2, h], h⟩

/-! ### Claim C1: Macaulay duration of a zero-coupon bond -/

lemma macaulay_zero_coupon_eq (b : Bond) (y : ℝ) (m : ℕ)
    (hm : b.T * b.freq = (m : ℝ)) (hm1 : 1 ≤ m) (hf : b.freq ≠ 0)
    (hN : b.N ≠ 0) (hc : b.cpn_ann = 0) (hy : 0 < 1 + y / b.freq) :
    macaulay_duration b y
      = some (round4 (b.T * Real.exp (-y * b.T) * (1 + y / b.freq) ^ m)) := by
  have hn : nbrePayments b.T b.freq = m := nbrePayments_natCast m hm
  have hT : b.T = (m : ℝ) / b.freq := (eq_div_iff hf).mpr hm
  have hmem : m - 1 ∈ Finset.range m := Finset.mem_range.mpr (by omega)
  have hcast : ((m - 1 : ℕ) : ℝ) + 1 = (m : ℝ) := by
    rw [Nat.cast_sub hm1]
    push_cast
    ring
  have hupow : (0 : ℝ) < (1 + y / b.freq) ^ m := pow_pos hy m
  have htl : (timelineList b.freq m).getD (m - 1) 0 = b.T := by
    rw [timelineList_getD b.freq (show m - 1 < m by omega), hcast, hT]
    ring
  have hCFlast : (cashFlowList b.N b.cpn_ann b.freq m).getD (m - 1) 0 = b.N := by
    rw [cashFlowList_getD_last _ _ _ hm1, hc]
    ring
  have hCF0 : ∀ i ∈ Finset.range m, i ≠ m - 1 →
      (cashFlowList b.N b.cpn_ann b.freq m).getD i 0 = 0 := by
    intro i hi hne
    rw [Finset.mem_range] at hi
    rw [cashFlowList_getD_of_lt _ _ _ (by omega), hc]
    ring
  have hprice : bond_c_price b y = some (b.N / (1 + y / b.freq) ^ m) := by
    rw [bond_c_price_of_ne _ _ (by omega)]
    congr 1
    rw [hn]
    rw [Finset.sum_eq_single (m - 1)]
    · rw [hCFlast, htl]
      have hexp : b.T * b.freq = ((m : ℕ) : ℝ) := hm
      rw [hexp, Real.rpow_natCast]
    · intro i hi hne
      rw [hCF0 i hi hne, zero_div]
    · intro habs
      exact absurd hmem habs
  rw [macaulay_duration_of_ne _ _ _ (by omega) hprice]
  congr 2
  rw [hn]
  rw [Finset.sum_eq_single (m - 1)]
  · rw [hCFlast, htl]
    field_simp
    ring
  · intro i hi hne
    rw [hCF0 i hi hne]
    simp
  · intro habs
    exact absurd hmem habs

/-- C1 counterexample: for the zero-coupon bond with face 100, tenor 2,
frequency 1 and yield 0.05, the Macaulay duration is
`round4 (2 * exp(-0.1) * 1.05^2) = 1.9952`, not the tenor 2: the exponential
weights and the periodic-compounding price use different conventions. -/
theorem zero_coupon_duration_cex :
    macaulay_duration (create_bond 100 2 0 1) (1 / 20) ≠ some 2 := by
  rw [macaulay_zero_coupon_eq (create_bond 100 2 0 1) (1 / 20) 2
    (by norm_num [create_bond]) (by omega) (by norm_num [create_bond])
    (by norm_num [create_bond]) rfl (by norm_num [create_bond])]
  simp only [ne_eq, Option.some.injEq]
  intro hEq
  have h2 : Real.exp ((4 : ℕ) * (1 / 40 : ℝ)) = Real.exp (1 / 40) ^ (4 : ℕ) :=
    Real.exp_nat_mul _ _
  have h3 : Real.exp (1 / 10 : ℝ) = Real.exp (1 / 40) ^ (4 : ℕ) := by
    rw [← h2]
    norm_num
  have h1 : ((41 / 40 : ℝ)) ^ (4 : ℕ) ≤ Real.exp (1 / 40) ^ (4 : ℕ) := by
    apply pow_le_pow_left₀ (by norm_num)
    have := Real.add_one_le_exp (1 / 40 : ℝ)
    linarith
  have h4 : Real.exp (-(1 / 10 : ℝ)) ≤ ((41 / 40 : ℝ) ^ (4 : ℕ))⁻¹ := by
    rw [Real.exp_neg]
    exact inv_anti₀ (by positivity) (h3 ▸ h1)
  have h5 : (create_bond 100 2 0 1).T *
      Real.exp (-(1 / 20) * (create_bond 100 2 0 1).T) *
      (1 + (1 / 20) / (create_bond 100 2 0 1).freq) ^ 2 ≤ 5644800 / 2825761 := by
    have hT2 : (create_bond 100 2 0 1).T = 2 := rfl
    have hfr : (create_bond 100 2 0 1).freq = 1 := rfl
    rw [hT2, hfr]
    have hh : -(1 / 20 : ℝ) * 2 = -(1 / 10 : ℝ) := by norm_num
    rw [hh]
    nlinarith [h4, Real.exp_pos (-(1 / 10 : ℝ))]
  have h6 := round4_le_add ((create_bond 100 2 0 1).T *
      Real.exp (-(1 / 20) * (create_bond 100 2 0 1).T) *
      (1 + (1 / 20) / (create_bond 100 2 0 1).freq) ^ 2)
  rw [hEq] at h6
  have : (2 : ℝ) ≤ 5644800 / 2825761 + 1 / 20000 := by linarith
  norm_num at this

/-- C1 amended: for a zero-coupon bond whose tenor times frequency is the
positive integer m, the Macaulay duration equals
`round4 (T * exp(-y*T) * (1 + y/freq)^m)` — the continuous-discounting weight
against the periodic-compounding price.  It equals the tenor only where the
two conventions coincide (e.g. at yield 0), not for every valid yield. -/
theorem zero_coupon_duration_formula (b : Bond) (y : ℝ) (m : ℕ)
    (hm : b.T * b.freq = (m : ℝ)) (hm1 : 1 ≤ m) (hf : b.freq ≠ 0)
    (hN : b.N ≠ 0) (hc : b.cpn_ann = 0) (hy : 0 < 1 + y / b.freq) :
    macaulay_duration b y
      = some (round4 (b.T * Real.exp (-y * b.T) * (1 + y / b.freq) ^ m)) :=
  macaulay_zero_coupon_eq b y m hm hm1 hf hN hc hy

theorem zero_coupon_duration_formula_witness :
    macaulay_duration (create_bond 1 1 0 1) 0 = some 1 := by
  rw [zero_coupon_duration_formula (create_bond 1 1 0 1) 0 1
    (by norm_num [create_bond]) (by omega) (by norm_num [create_bond])
    (by norm_num [create_bond]) rfl (by norm_num [create_bond])]
  have h0 : (create_bond 1 1 0 1).T * Real.exp (-0 * (create_bond 1 1 0 1).T) *
      (1 + 0 / (create_bond 1 1 0 1).freq) ^ 1 = 1 := by
    have hT : (create_bond 1 1 0 1).T = 1 := rfl
    rw [hT]
    norm_num
  rw [h0, round4_eq_of 1 10000 (by norm_num) (by norm_num)]
  norm_num

/-! ### Claim C7: duration bounds -/

lemma tlAt_eq (b : Bond) {i : ℕ} (hi : i < nbrePayments b.T b.freq) :
    tlAt b i = ((i : ℝ) + 1) * (1 / b.freq) :=
  timelineList_getD _ hi

lemma cfAt_pos (b : Bond) (hN : 0 < b.N) (hc : 0 < b.cpn_ann) (hf : 0 < b.freq)
    {i : ℕ} (hi : i < nbrePayments b.T b.freq) :
    0 < cfAt b i := by
  rw [cfAt]
  by_cases hlast : i = nbrePayments b.T b.freq - 1
  · rw [hlast, cashFlowList_getD_last _ _ _ (by omega)]
    positivity
  · rw [cashFlowList_getD_of_lt _ _ _ (by omega)]
    positivity

/-- C7 amended: for a bond with positive face, coupon and frequency, a
positive yield and a positive payment count, both durations are produced, the
(rounded) Macaulay duration can exceed the tenor only by the rounding step —
it is at most `tenor_years + 0.00005` — and the modified duration is at most
(not strictly below) the Macaulay duration, equality being possible after the
4-decimal rounding. -/
theorem duration_bounds (b : Bond) (y : ℝ) (hN : 0 < b.N) (hc : 0 < b.cpn_ann)
    (hf : 0 < b.freq) (hy : 0 < y) (hn : 1 ≤ nbrePayments b.T b.freq) :
    (macaulay_duration b y).isSome = true ∧
      (modified_macaulay_duration b y).isSome = true ∧
      (macaulay_duration b y).getD 0 ≤ b.T + 1 / 20000 ∧
      (modified_macaulay_duration b y).getD 0 ≤ (macaulay_duration b y).getD 0 := by
  have hn0 : nbrePayments b.T b.freq ≠ 0 := by omega
  have hne : (Finset.range (nbrePayments b.T b.freq)).Nonempty :=
    Finset.nonempty_range_iff.mpr hn0
  have hu0 : (0 : ℝ) < 1 + y / b.freq := by positivity
  have hu1 : (1 : ℝ) ≤ 1 + y / b.freq := by
    have : 0 ≤ y / b.freq := le_of_lt (div_pos hy hf)
    linarith
  have htl_pos : ∀ i ∈ Finset.range (nbrePayments b.T b.freq), 0 < tlAt b i := by
    intro i hi
    rw [Finset.mem_range] at hi
    rw [tlAt_eq b hi]
    positivity
  have hD_pos : ∀ i, 0 < discAt b y i := fun i => Real.rpow_pos_of_pos hu0 _
  have hCF_pos : ∀ i ∈ Finset.range (nbrePayments b.T b.freq), 0 < cfAt b i := by
    intro i hi
    rw [Finset.mem_range] at hi
    exact cfAt_pos b hN hc hf hi
  have hP_pos : 0 < priceSum b y := by
    rw [priceSum]
    exact Finset.sum_pos (fun i hi => div_pos (hCF_pos i hi) (hD_pos i)) hne
  have hTf : (nbrePayments b.T b.freq : ℝ) ≤ b.T * b.freq := nbrePayments_cast_le hn
  have htl_le : ∀ i ∈ Finset.range (nbrePayments b.T b.freq), tlAt b i ≤ b.T := by
    intro i hi
    rw [Finset.mem_range] at hi
    rw [tlAt_eq b hi, mul_one_div, div_le_iff₀ hf]
    have hi1 : ((i : ℝ) + 1) ≤ (nbrePayments b.T b.freq : ℝ) := by
      exact_mod_cast Nat.succ_le_of_lt hi
    linarith
  have h0mem : 0 ∈ Finset.range (nbrePayments b.T b.freq) :=
    Finset.mem_range.mpr (by omega)
  have hT_pos : 0 < b.T := lt_of_lt_of_le (htl_pos 0 h0mem) (htl_le 0 h0mem)
  have hD_le : ∀ i ∈ Finset.range (nbrePayments b.T b.freq),
      discAt b y i ≤ Real.exp (y * tlAt b i) := by
    intro i hi
    rw [discAt, Real.rpow_def_of_pos hu0]
    apply Real.exp_le_exp.mpr
    have hlog : Real.log (1 + y / b.freq) ≤ y / b.freq := by
      have := Real.log_le_sub_one_of_pos hu0
      linarith
    have htlf : 0 ≤ tlAt b i * b.freq := le_of_lt (mul_pos (htl_pos i hi) hf)
    have h2 : Real.log (1 + y / b.freq) * (tlAt b i * b.freq)
        ≤ (y / b.freq) * (tlAt b i * b.freq) :=
      mul_le_mul_of_nonneg_right hlog htlf
    have h3 : (y / b.freq) * (tlAt b i * b.freq) = y * tlAt b i := by
      field_simp
      ring
    rw [h3] at h2
    exact h2
  have hterm : ∀ i ∈ Finset.range (nbrePayments b.T b.freq),
      tlAt b i * Real.exp (-y * tlAt b i) * cfAt b i
        ≤ b.T * (cfAt b i / discAt b y i) := by
    intro i hi
    have he : Real.exp (-y * tlAt b i) ≤ (discAt b y i)⁻¹ := by
      rw [show -y * tlAt b i = -(y * tlAt b i) by ring, Real.exp_neg]
      exact inv_anti₀ (hD_pos i) (hD_le i hi)
    have hCFp := le_of_lt (hCF_pos i hi)
    calc tlAt b i * Real.exp (-y * tlAt b i) * cfAt b i
        ≤ b.T * Real.exp (-y * tlAt b i) * cfAt b i :=
          mul_le_mul_of_nonneg_right
            (mul_le_mul_of_nonneg_right (htl_le i hi) (le_of_lt (Real.exp_pos _))) hCFp
      _ ≤ b.T * (discAt b y i)⁻¹ * cfAt b i :=
          mul_le_mul_of_nonneg_right
            (mul_le_mul_of_nonneg_left he (le_of_lt hT_pos)) hCFp
      _ = b.T * (cfAt b i / discAt b y i) := by
          rw [div_eq_mul_inv]
          ring
  have hWS : weightSum b y ≤ b.T := by
    calc weightSum b y
        = (∑ i in Finset.range (nbrePayments b.T b.freq),
            tlAt b i * Real.exp (-y * tlAt b i) * cfAt b i) / priceSum b y := by
          rw [weightSum, ← Finset.sum_div]
      _ ≤ (∑ i in Finset.range (nbrePayments b.T b.freq),
            b.T * (cfAt b i / discAt b y i)) / priceSum b y := by
          apply (div_le_div_iff_of_pos_right hP_pos).mpr
          exact Finset.sum_le_sum hterm
      _ = b.T * (priceSum b y / priceSum b y) := by
          rw [← Finset.mul_sum, priceSum]
          ring
      _ = b.T := by
          rw [div_self (ne_of_gt hP_pos), mul_one]
  have hWS_pos : 0 < weightSum b y := by
    rw [weightSum]
    refine Finset.sum_pos (fun i hi => ?_) hne
    exact div_pos (mul_pos (mul_pos (htl_pos i hi) (Real.exp_pos _)) (hCF_pos i hi))
      hP_pos
  have hmac := macaulay_duration_eq_weightSum b y hn0
  have hmd_le : round4 (weightSum b y) ≤ b.T + 1 / 20000 :=
    le_trans (round4_le_add _) (by linarith)
  have hmd_nonneg : 0 ≤ round4 (weightSum b y) := round4_nonneg (le_of_lt hWS_pos)
  have hmod := modified_of_some b y (round4 (weightSum b y)) hmac
  have hdiv_le : round4 (weightSum b y) / (1 + y / b.freq) ≤ round4 (weightSum b y) :=
    div_le_self hmd_nonneg hu1
  have hmod_le : round4 (round4 (weightSum b y) / (1 + y / b.freq))
      ≤ round4 (weightSum b y) :=
    le_trans (round4_mono hdiv_le) (le_of_eq (round4_idem _))
  refine ⟨?_, ?_, ?_, ?_⟩
  · rw [hmac]
    rfl
  · rw [hmod]
    rfl
  · rw [hmac]
    simpa using hmd_le
  · rw [hmac, hmod]
    simpa using hmod_le

/-- C7 counterexample: for the bond with face 100, tenor 2/3, coupon rate
1/10000 and frequency 3 at yield 1/10000 (positive coupon, positive yield,
two payments), the rounded Macaulay duration is `0.6667 > 2/3 = tenor_years`,
and the modified duration equals the Macaulay duration instead of being
strictly below it; both conjuncts of the claim fail. -/
theorem duration_bound_cex :
    macaulay_duration (create_bond 100 (2 / 3) (1 / 10000) 3) (1 / 10000)
        = some (6667 / 10000) ∧
      modified_macaulay_duration (create_bond 100 (2 / 3) (1 / 10000) 3) (1 / 10000)
        = some (6667 / 10000) ∧
      (2 / 3 : ℝ) < 6667 / 10000 := by
  have hn2 : nbrePayments (create_bond 100 (2 / 3) (1 / 10000) 3).T
      (create_bond 100 (2 / 3) (1 / 10000) 3).freq = 2 :=
    nbrePayments_natCast 2 (by norm_num [create_bond])
  have hn0 : nbrePayments (create_bond 100 (2 / 3) (1 / 10000) 3).T
      (create_bond 100 (2 / 3) (1 / 10000) 3).freq ≠ 0 := by
    rw [hn2]
    omega
  have htl0 : tlAt (create_bond 100 (2 / 3) (1 / 10000) 3) 0 = 1 / 3 := by
    rw [tlAt_eq _ (by rw [hn2]; omega)]
    norm_num [create_bond]
  have htl1 : tlAt (create_bond 100 (2 / 3) (1 / 10000) 3) 1 = 2 / 3 := by
    rw [tlAt_eq _ (by rw [hn2]; omega)]
    norm_num [create_bond]
  have hcf0 : cfAt (create_bond 100 (2 / 3) (1 / 10000) 3) 0 = 1 / 300 := by
    rw [cfAt, hn2, cashFlowList_getD_of_lt _ _ _ (by omega)]
    norm_num [create_bond]
  have hcf1 : cfAt (create_bond 100 (2 / 3) (1 / 10000) 3) 1 = 30001 / 300 := by
    rw [cfAt, hn2]
    have h := cashFlowList_getD_last (create_bond 100 (2 / 3) (1 / 10000) 3).N
      (create_bond 100 (2 / 3) (1 / 10000) 3).cpn_ann
      (create_bond 100 (2 / 3) (1 / 10000) 3).freq (show 1 ≤ 2 by omega)
    rw [show (2 : ℕ) - 1 = 1 from rfl] at h
    rw [h]
    norm_num [create_bond]
  have hdisc0 : discAt (create_bond 100 (2 / 3) (1 / 10000) 3) (1 / 10000) 0
      = 30001 / 30000 := by
    rw [discAt, htl0]
    have he : (1 / 3 : ℝ) * (create_bond 100 (2 / 3) (1 / 10000) 3).freq = 1 := by
      norm_num [create_bond]
    rw [he, Real.rpow_one]
    norm_num [create_bond]
  have hdisc1 : discAt (create_bond 100 (2 / 3) (1 / 10000) 3) (1 / 10000) 1
      = (30001 / 30000 : ℝ) ^ (2 : ℕ) := by
    rw [discAt, htl1]
    have he : (2 / 3 : ℝ) * (create_bond 100 (2 / 3) (1 / 10000) 3).freq
        = ((2 : ℕ) : ℝ) := by
      norm_num [create_bond]
    rw [he, Real.rpow_natCast]
    norm_num [create_bond]
  have hprice : priceSum (create_bond 100 (2 / 3) (1 / 10000) 3) (1 / 10000) = 100 := by
    rw [priceSum, hn2, Finset.sum_range_succ, Finset.sum_range_one, hcf0, hcf1,
      hdisc0, hdisc1]
    norm_num
  have harg0 : -(1 / 10000 : ℝ) * (1 / 3) = -(1 / 30000) := by norm_num
  have harg1 : -(1 / 10000 : ℝ) * (2 / 3) = -(1 / 15000) := by norm_num
  have hws : weightSum (create_bond 100 (2 / 3) (1 / 10000) 3) (1 / 10000)
      = ((1 / 3) * Real.exp (-(1 / 30000)) * (1 / 300)
          + (2 / 3) * Real.exp (-(1 / 15000)) * (30001 / 300)) / 100 := by
    rw [weightSum, hn2, Finset.sum_range_succ, Finset.sum_range_one, htl0, htl1,
      hcf0, hcf1, hprice, harg0, harg1]
    ring
  have hE1lo : (1 : ℝ) - 1 / 30000 ≤ Real.exp (-(1 / 30000)) :=
    one_sub_le_exp_neg (1 / 30000)
  have hE2lo : (1 : ℝ) - 1 / 15000 ≤ Real.exp (-(1 / 15000)) :=
    one_sub_le_exp_neg (1 / 15000)
  have hE1hi : Real.exp (-(1 / 30000 : ℝ)) ≤ 30000 / 30001 := by
    have h := exp_neg_le_inv_one_add (show (0 : ℝ) < 1 + 1 / 30000 by norm_num)
    have he : ((1 : ℝ) + 1 / 30000)⁻¹ = 30000 / 30001 := by norm_num
    rw [he] at h
    exact h
  have hE2hi : Real.exp (-(1 / 15000 : ℝ)) ≤ 15000 / 15001 := by
    have h := exp_neg_le_inv_one_add (show (0 : ℝ) < 1 + 1 / 15000 by norm_num)
    have he : ((1 : ℝ) + 1 / 15000)⁻¹ = 15000 / 15001 := by norm_num
    rw [he] at h
    exact h
  have hmac : macaulay_duration (create_bond 100 (2 / 3) (1 / 10000) 3) (1 / 10000)
      = some (6667 / 10000) := by
    rw [macaulay_duration_eq_weightSum _ _ hn0]
    rw [round4_eq_of _ 6667 (by rw [hws]; push_cast; linarith)
      (by rw [hws]; push_cast; linarith)]
    norm_num
  have hmod : modified_macaulay_duration (create_bond 100 (2 / 3) (1 / 10000) 3)
      (1 / 10000) = some (6667 / 10000) := by
    rw [modified_of_some _ _ _ hmac]
    have he : (6667 / 10000 : ℝ) /
        (1 + (1 / 10000) / (create_bond 100 (2 / 3) (1 / 10000) 3).freq)
        = 20001 / 30001 := by
      norm_num [create_bond]
    rw [he, round4_eq_of _ 6667 (by norm_num) (by norm_num)]
    norm_num
  exact ⟨hmac, hmod, by norm_num⟩

theorem duration_bounds_witness :
    (macaulay_duration (create_bond 100 1 (6 / 100) 1) (1 / 10000)).isSome = true ∧
      (modified_macaulay_duration (create_bond 100 1 (6 / 100) 1) (1 / 10000)).isSome
          = true ∧
      (macaulay_duration (create_bond 100 1 (6 / 100) 1) (1 / 10000)).getD 0
          ≤ (create_bond 100 1 (6 / 100) 1).T + 1 / 20000 ∧
      (modified_macaulay_duration (create_bond 100 1 (6 / 100) 1) (1 / 10000)).getD 0
          ≤ (macaulay_duration (create_bond 100 1 (6 / 100) 1) (1 / 10000)).getD 0 :=
  duration_bounds (create_bond 100 1 (6 / 100) 1) (1 / 10000)
    (by norm_num [create_bond]) (by norm_num [create_bond])
    (by norm_num [create_bond]) (by norm_num) (by
      show 1 ≤ nbrePayments (1 : ℝ) 1
      rw [nbrePayments_natCast 1 (by norm_num)])

end AdvancedFixedIncome
